import Mathlib

/-!
Verification of the `rust_labs` repository specification.

Part 1 (`Lab3`) embeds `src/rust_lab_3/src/main.rs`: the symbolic
expression tree `E`, its differentiation `diff`, the double-negation and
double-reciprocal simplification passes `unneg` / `uninv`, `substitute`,
and the `Display` rendering.

Part 2 (`Lab5`) embeds `src/rust_lab_5/src/main.rs`: the statement /
expression mini-interpreter.  The Rust context `HashMap<&str, u64>` is
modelled as `String → Option Nat`; external `&mut u64` memory cells are
modelled as a store `Nat → Nat` indexed by cell identity; a `panic!`
(missing environment key) is modelled as `Option.none` propagating out of
the evaluation.  The `&Context` argument of `exec_expr` / `exec_stmt` is a
shared reference in Rust, so the caller's environment can never be
mutated; correspondingly the embedding passes the context as an immutable
value that is never part of the mutable state.
-/

namespace Lab3

/-- Variables of the lab 3 expression tree (`enum Var`). -/
inductive Var where
  | X
  | Y
  | Z
deriving DecidableEq, Repr

/-- Constants of the lab 3 expression tree (`enum Const`). -/
inductive Const where
  | Numeric : Int → Const
  | Named : String → Const
deriving DecidableEq, Repr

/-- The lab 3 expression tree (`enum E`). -/
inductive E where
  | Add : E → E → E
  | Neg : E → E
  | Mul : E → E → E
  | Inv : E → E
  | Const : Const → E
  | Func : String → E → E
  | Var : Var → E
deriving DecidableEq, Repr

/-- Rendering of `Var` (`impl fmt::Display for Var`). -/
def varName : Var → String
  | .X => "X"
  | .Y => "Y"
  | .Z => "Z"

/-- Rendering of `Const` (`impl fmt::Display for Const`). -/
def renderConst : Const → String
  | .Numeric n => toString n
  | .Named n => n

/-- Rendering of `E` (`impl fmt::Display for E`). -/
def render : E → String
  | .Add e1 e2 => "(" ++ render e1 ++ " + " ++ render e2 ++ ")"
  | .Neg e => "-(" ++ render e ++ ")"
  | .Mul e1 e2 => "(" ++ render e1 ++ " * " ++ render e2 ++ ")"
  | .Inv e => "1/(" ++ render e ++ ")"
  | .Const c => renderConst c
  | .Var v => varName v
  | .Func name arg => name ++ "(" ++ render arg ++ ")"

/-- Symbolic differentiation (`E::diff`).  The Rust parameter is called
`by`, a reserved word in Lean, so it is `b` here. -/
def diff : E → Var → E
  | .Add e1 e2, b => .Add (diff e1 b) (diff e2 b)
  | .Neg e, b => .Neg (diff e b)
  | .Mul e1 e2, b => .Add (.Mul (diff e1 b) e2) (.Mul e1 (diff e2 b))
  | .Inv e, b => .Mul (.Neg (.Inv (.Mul e e))) (diff e b)
  | .Const _, _ => .Const (.Numeric 0)
  | .Var v, b => if v = b then .Const (.Numeric 1) else .Const (.Numeric 0)
  | .Func name arg, b => .Mul (.Func (name ++ "_" ++ varName b) arg) (diff arg b)

/-- One step of double-reciprocal unpacking (`E::unpack_inv_inv`). -/
def unpack_inv_inv : E → Option E
  | .Inv (.Inv e) => some e
  | _ => none

/-- One step of double-negation unpacking (`E::unpack_neg_neg`). -/
def unpack_neg_neg : E → Option E
  | .Neg (.Neg e) => some e
  | _ => none

/-- Double-reciprocal elimination (`E::uninv`): the Rust `while let` loop
strips two `Inv` layers off the root as long as the root is `Inv (Inv _)`. -/
def uninv : E → E
  | .Inv (.Inv e) => uninv e
  | .Add e1 e2 => .Add e1 e2
  | .Neg e => .Neg e
  | .Mul e1 e2 => .Mul e1 e2
  | .Inv e => .Inv e
  | .Const c => .Const c
  | .Func name arg => .Func name arg
  | .Var v => .Var v

/-- Double-negation elimination (`E::unneg`): the Rust `while let` loop
strips two `Neg` layers off the root as long as the root is `Neg (Neg _)`. -/
def unneg : E → E
  | .Neg (.Neg e) => unneg e
  | .Add e1 e2 => .Add e1 e2
  | .Neg e => .Neg e
  | .Mul e1 e2 => .Mul e1 e2
  | .Inv e => .Inv e
  | .Const c => .Const c
  | .Func name arg => .Func name arg
  | .Var v => .Var v

/-- Substitution of a named constant (`E::substitute`). -/
def substitute : E → String → E → E
  | .Add e1 e2, n, v => .Add (substitute e1 n v) (substitute e2 n v)
  | .Neg e, n, v => .Neg (substitute e n v)
  | .Mul e1 e2, n, v => .Mul (substitute e1 n v) (substitute e2 n v)
  | .Inv e, n, v => .Inv (substitute e n v)
  | .Var w, _, _ => .Var w
  | .Func f arg, n, v => .Func f (substitute arg n v)
  | .Const (.Named m), n, v => if m = n then v else .Const (.Named m)
  | .Const (.Numeric i), _, _ => .Const (.Numeric i)

/-- Whether the tree has a named-constant leaf with the given name
(the condition under which `substitute` changes anything). -/
def containsNamed : E → String → Bool
  | .Add e1 e2, n => containsNamed e1 n || containsNamed e2 n
  | .Neg e, n => containsNamed e n
  | .Mul e1 e2, n => containsNamed e1 n || containsNamed e2 n
  | .Inv e, n => containsNamed e n
  | .Var _, _ => false
  | .Func _ arg, n => containsNamed arg n
  | .Const (.Named m), n => m = n
  | .Const (.Numeric _), _ => false

/-- Wrapping a tree in `n` negation layers. -/
def negIter : Nat → E → E
  | 0, e => e
  | n + 1, e => .Neg (negIter n e)

/-- Wrapping a tree in `n` reciprocal layers. -/
def invIter : Nat → E → E
  | 0, e => e
  | n + 1, e => .Inv (invIter n e)

/-- Whether the root of the tree is a negation. -/
def isNegRoot : E → Bool
  | .Neg _ => true
  | _ => false

/-- Whether the root of the tree is a reciprocal. -/
def isInvRoot : E → Bool
  | .Inv _ => true
  | _ => false

/-- Number of consecutive negation layers at the root. -/
def countNeg : E → Nat
  | .Neg e => countNeg e + 1
  | _ => 0

/-- Number of consecutive reciprocal layers at the root. -/
def countInv : E → Nat
  | .Inv e => countInv e + 1
  | _ => 0

end Lab3

namespace Lab5

/-- The environment (`type Context = HashMap<&str, u64>`), modelled as a
total lookup function: `ctx name` is `HashMap::get(name)`. -/
def Ctx : Type := String → Option Nat

/-- The external mutable memory (`&mut u64` cells), modelled as a store of
`u64` values indexed by cell identity.  No arithmetic is performed on cell
values anywhere in the lab 5 source, so plain `Nat` is a faithful model of
`u64` here. -/
def Mem : Type := Nat → Nat

/-- `HashMap::insert`: bind `k` to `v`, overriding any existing binding. -/
def insertCtx (ctx : Ctx) (k : String) (v : Nat) : Ctx :=
  fun s => if s = k then some v else ctx s

/-- Writing the `u64` cell `c` of the store. -/
def writeCell (m : Mem) (c : Nat) (v : Nat) : Mem :=
  fun i => if i = c then v else m i

/-- Expression nodes of the lab 5 interpreter: `u64` literals
(`impl Expr for u64`), `When`, `Constant`, `ReadFrom`, `SaveIn` and
`Volatile`.  Cells are referenced by identity into `Mem`. -/
inductive Expr where
  | lit : Nat → Expr
  | when : Expr → Expr → Expr → Expr
  | constant : String → Expr
  | readFrom : Nat → Expr
  | saveIn : Nat → Expr → Expr
  | volatile : Nat → String → Expr → Expr

/-- Statement nodes of the lab 5 interpreter: `Print`, `Nothing`, `Seq`,
`Repeat<N>`, plus the test-suite `Recorder` statement, which appends its
label to a shared log each time it executes. -/
inductive Stmt where
  | print : Expr → Stmt
  | nothing : Stmt
  | seq : Stmt → Stmt → Stmt
  | repeatN : Nat → Stmt → Stmt
  | recorder : String → Stmt

/-- Mutable state threaded through execution: the memory cells, the lines
printed by `Print` so far, and the `Recorder` log. -/
structure St where
  mem : Mem
  out : List Nat
  log : List String

/-- Evaluation of expressions (`Expr::exec_expr`), with the context passed
as an immutable value (`&Context` in Rust) and the cell store threaded
through explicitly.  `none` models a `panic!` aborting the evaluation:
`Constant::exec_expr` panics with "{name} not found" when the key is
missing.  `Volatile::exec_expr` clones the context, inserts the override
binding, evaluates the inner expression against the clone, then writes the
result into its destination cell. -/
def execExpr : Expr → Ctx → Mem → Option (Nat × Mem)
  | .lit n, _, m => some (n, m)
  | .when c t f, ctx, m =>
      match execExpr c ctx m with
      | none => none
      | some (v, m') => if v = 0 then execExpr f ctx m' else execExpr t ctx m'
  | .constant name, ctx, m =>
      match ctx name with
      | none => none
      | some v => some (v, m)
  | .readFrom c, _, m => some (m c, m)
  | .saveIn c e, ctx, m =>
      match execExpr e ctx m with
      | none => none
      | some (v, m') => some (v, writeCell m' c v)
  | .volatile c k e, ctx, m =>
      match execExpr e (insertCtx ctx k (m c)) m with
      | none => none
      | some (v, m') => some (v, writeCell m' c v)

/-- Execution of statements (`Stmt::exec_stmt`).  `Repeat<N>` runs its
inner statement `N` times in sequence against the same context. -/
def execStmt : Stmt → Ctx → St → Option St
  | .print e, ctx, st =>
      match execExpr e ctx st.mem with
      | none => none
      | some (v, m') => some { st with mem := m', out := st.out ++ [v] }
  | .nothing, _, st => some st
  | .seq s1 s2, ctx, st =>
      match execStmt s1 ctx st with
      | none => none
      | some st' => execStmt s2 ctx st'
  | .repeatN 0 _, _, st => some st
  | .repeatN (n + 1) s, ctx, st =>
      match execStmt s ctx st with
      | none => none
      | some st' => execStmt (.repeatN n s) ctx st'
  | .recorder l, _, st => some { st with log := st.log ++ [l] }

/-- The `n`-fold sequential composition of a statement, used to state that
`Repeat` means "run the inner statement `n` times in order". -/
def seqChain : Nat → Stmt → Stmt
  | 0, _ => .nothing
  | n + 1, s => .seq s (seqChain n s)

/-- The empty environment. -/
def ctx0 : Ctx := fun _ => none

/-- The store in which every cell holds `7`. -/
def mem7 : Mem := fun _ => 7

/-- The environment `{x: 0, y: 10}` of `fn main` in lab 5. -/
def ctxXY : Ctx :=
  fun s => if s = "x" then some 0 else if s = "y" then some 10 else none

end Lab5

namespace Lab3

lemma unneg_fix (e : E) (h : isNegRoot e = false) : unneg e = e := by
  cases e <;> simp_all [unneg, isNegRoot]

lemma unneg_neg_fix (e : E) (h : isNegRoot e = false) : unneg (.Neg e) = .Neg e := by
  cases e <;> simp_all [unneg, isNegRoot]

lemma uninv_fix (e : E) (h : isInvRoot e = false) : uninv e = e := by
  cases e <;> simp_all [uninv, isInvRoot]

lemma uninv_inv_fix (e : E) (h : isInvRoot e = false) : uninv (.Inv e) = .Inv e := by
  cases e <;> simp_all [uninv, isInvRoot]

lemma unneg_negIter_mod : ∀ (n : Nat) (e : E), isNegRoot e = false →
    unneg (negIter n e) = negIter (n % 2) e
  | 0, e, h => by simpa [negIter] using unneg_fix e h
  | 1, e, h => by simpa [negIter] using unneg_neg_fix e h
  | n + 2, e, h => by
      have ih := unneg_negIter_mod n e h
      have hmod : (n + 2) % 2 = n % 2 := by omega
      have hstep : unneg (negIter (n + 2) e) = unneg (negIter n e) := by
        simp [negIter, unneg]
      rw [hstep, ih, hmod]

lemma uninv_invIter_mod : ∀ (n : Nat) (e : E), isInvRoot e = false →
    uninv (invIter n e) = invIter (n % 2) e
  | 0, e, h => by simpa [invIter] using uninv_fix e h
  | 1, e, h => by simpa [invIter] using uninv_inv_fix e h
  | n + 2, e, h => by
      have ih := uninv_invIter_mod n e h
      have hmod : (n + 2) % 2 = n % 2 := by omega
      have hstep : uninv (invIter (n + 2) e) = uninv (invIter n e) := by
        simp [invIter, uninv]
      rw [hstep, ih, hmod]

lemma countNeg_eq_zero (e : E) (h : isNegRoot e = false) : countNeg e = 0 := by
  cases e <;> simp_all [countNeg, isNegRoot]

lemma countInv_eq_zero (e : E) (h : isInvRoot e = false) : countInv e = 0 := by
  cases e <;> simp_all [countInv, isInvRoot]

lemma substitute_of_not_contains (e : E) (n : String) (v : E)
    (h : containsNamed e n = false) : substitute e n v = e := by
  induction e with
  | Add e1 e2 ih1 ih2 => simp_all [containsNamed, substitute]
  | Neg e ih => simp_all [containsNamed, substitute]
  | Mul e1 e2 ih1 ih2 => simp_all [containsNamed, substitute]
  | Inv e ih => simp_all [containsNamed, substitute]
  | Const c =>
      cases c with
      | Numeric i => simp [substitute]
      | Named m => simp_all [containsNamed, substitute]
  | Func f arg ih => simp_all [containsNamed, substitute]
  | Var w => simp [substitute]

/-- C6: differentiating a sum gives the sum of the derivatives,
differentiating a product follows the product rule exactly (with the
summands ordered `f'·g + f·g'`), and differentiating any constant leaf,
numeric or named, gives the numeric constant `0`. -/
theorem diff_sum_product_constant_rules (f g : E) (b : Var) (c : Const) :
    diff (.Add f g) b = .Add (diff f b) (diff g b)
    ∧ diff (.Mul f g) b = .Add (.Mul (diff f b) g) (.Mul f (diff g b))
    ∧ diff (.Const c) b = .Const (.Numeric 0) := by
  refine ⟨?_, ?_, ?_⟩ <;> simp [diff]

/-- C7: applying `unneg` (resp. `uninv`) to `n` negation (resp.
reciprocal) layers wrapped around a tree whose root is not that wrapper
removes two layers at a time until no pair remains, leaving exactly
`n % 2` wrapper layers around the tree. -/
theorem unwrap_pairs_iter_mod (n : Nat) (e : E) :
    (isNegRoot e = false → unneg (negIter n e) = negIter (n % 2) e)
    ∧ (isInvRoot e = false → uninv (invIter n e) = invIter (n % 2) e) :=
  ⟨unneg_negIter_mod n e, uninv_invIter_mod n e⟩

/-- Witness for C7 at `n = 5`, `e = Var X`: five layers simplify to one. -/
theorem unwrap_pairs_iter_mod_witness :
    unneg (negIter 5 (E.Var .X)) = negIter (5 % 2) (E.Var .X)
    ∧ uninv (invIter 5 (E.Var .X)) = invIter (5 % 2) (E.Var .X) :=
  ⟨(unwrap_pairs_iter_mod 5 (E.Var .X)).1 (by decide),
   (unwrap_pairs_iter_mod 5 (E.Var .X)).2 (by decide)⟩

/-- C3 counterexample: at `k = 1` (odd) the claim predicts one leftover
negation after simplifying `2·k = 2` negation layers around `Var X`, but
`unneg` eliminates the pair completely, leaving zero negations. -/
theorem double_wrap_parity_counterexample :
    ¬ (countNeg (unneg (negIter (2 * 1) (E.Var .X)))
        = if 1 % 2 = 0 then 0 else 1) := by
  decide

/-- C3 (amended): for every `k ≥ 1` and every tree whose root is not the
wrapper, simplifying exactly `2·k` wrapper layers yields zero wrapper
layers at the root, regardless of the parity of `k` (same for `unneg` on
negations and `uninv` on reciprocals). -/
theorem double_wrap_elimination (e : E) (k : Nat) (_hk : 1 ≤ k) :
    (isNegRoot e = false → countNeg (unneg (negIter (2 * k) e)) = 0)
    ∧ (isInvRoot e = false → countInv (uninv (invIter (2 * k) e)) = 0) := by
  constructor
  · intro h
    rw [unneg_negIter_mod (2 * k) e h, Nat.mul_mod_right]
    simpa [negIter] using countNeg_eq_zero e h
  · intro h
    rw [uninv_invIter_mod (2 * k) e h, Nat.mul_mod_right]
    simpa [invIter] using countInv_eq_zero e h

/-- Witness for the amended C3 at `k = 1`, `e = Var X`. -/
theorem double_wrap_elimination_witness :
    countNeg (unneg (negIter (2 * 1) (E.Var .X))) = 0
    ∧ countInv (uninv (invIter (2 * 1) (E.Var .X))) = 0 :=
  ⟨(double_wrap_elimination (E.Var .X) 1 (by decide)).1 (by decide),
   (double_wrap_elimination (E.Var .X) 1 (by decide)).2 (by decide)⟩

/-- C8: substituting for a symbol that occurs at no named-constant leaf of
the tree renders to exactly the same string as the input tree. -/
theorem substitute_no_match_render (e : E) (n : String) (v : E)
    (h : containsNamed e n = false) :
    render (substitute e n v) = render e := by
  rw [substitute_of_not_contains e n v h]

/-- Witness for C8 on `(b + X)` with symbol `a` and value `3`. -/
theorem substitute_no_match_render_witness :
    containsNamed (E.Add (E.Const (.Named "b")) (E.Var .X)) "a" = false
    ∧ render (substitute (E.Add (E.Const (.Named "b")) (E.Var .X)) "a"
        (E.Const (.Numeric 3)))
      = render (E.Add (E.Const (.Named "b")) (E.Var .X)) :=
  ⟨by decide, substitute_no_match_render _ _ _ (by decide)⟩

end Lab3

namespace Lab5

lemma execStmt_repeatN_seqChain : ∀ (n : Nat) (s : Stmt) (ctx : Ctx) (st : St),
    execStmt (.repeatN n s) ctx st = execStmt (seqChain n s) ctx st
  | 0, s, ctx, st => by simp [execStmt, seqChain]
  | n + 1, s, ctx, st => by
      cases h : execStmt s ctx st with
      | none => simp [execStmt, seqChain, h]
      | some st' =>
          simp [execStmt, seqChain, h, execStmt_repeatN_seqChain n s ctx st']

lemma execStmt_repeatN_recorder : ∀ (n : Nat) (l : String) (ctx : Ctx) (st : St),
    execStmt (.repeatN n (.recorder l)) ctx st
      = some { st with log := st.log ++ List.replicate n l }
  | 0, _, _, st => by simp [execStmt]
  | n + 1, l, ctx, st => by
      have ih := execStmt_repeatN_recorder n l ctx { st with log := st.log ++ [l] }
      simp [execStmt, ih, List.replicate_succ]

/-- C1: `Volatile(c, k, E)` evaluates `E` against a copy of the caller's
context in which `k` is bound to the current value of cell `c`, then
writes the result into cell `c`, so the cell equals the returned value
afterwards.  The caller-visible context is untouched: it enters the nested
evaluation only through the overridden clone `insertCtx ctx k (m c)`, and
the context is never part of the mutable state threaded through
`execExpr` (mirroring the shared `&Context` reference in Rust). -/
theorem volatile_shadow_spec (e : Expr) (ctx : Ctx) (c : Nat) (k : String)
    (m : Mem) :
    execExpr (.volatile c k e) ctx m
      = (execExpr e (insertCtx ctx k (m c)) m).map
          (fun p => (p.1, writeCell p.2 c p.1))
    ∧ (∀ v m', execExpr (.volatile c k e) ctx m = some (v, m') → m' c = v) := by
  have h1 : execExpr (.volatile c k e) ctx m
      = (execExpr e (insertCtx ctx k (m c)) m).map
          (fun p => (p.1, writeCell p.2 c p.1)) := by
    cases h : execExpr e (insertCtx ctx k (m c)) m with
    | none => simp [execExpr, h]
    | some p => cases p with | mk w m2 => simp [execExpr, h]
  refine ⟨h1, ?_⟩
  intro v m' hv
  rw [h1] at hv
  cases h : execExpr e (insertCtx ctx k (m c)) m with
  | none => rw [h] at hv; simp at hv
  | some p =>
      cases p with
      | mk w m2 =>
          rw [h] at hv
          simp at hv
          obtain ⟨rfl, rfl⟩ := hv
          simp [writeCell]

/-- Witness for C1: a volatile node around a lookup of the override key,
in the empty context, with all cells holding `7`. -/
theorem volatile_shadow_spec_witness :
    execExpr (.volatile 0 "k" (.constant "k")) ctx0 mem7
      = some (7, writeCell mem7 0 7)
    ∧ (writeCell mem7 0 7) 0 = 7 := by
  have h := volatile_shadow_spec (.constant "k") ctx0 0 "k" mem7
  have he : execExpr (.volatile 0 "k" (.constant "k")) ctx0 mem7
      = some (7, writeCell mem7 0 7) := by rw [h.1]; rfl
  exact ⟨he, h.2 7 (writeCell mem7 0 7) he⟩

/-- C2: a conditional whose condition evaluates to `0` returns the value
of the false branch and never evaluates its true branch (the result is the
same for every true branch, so no side effect of it can occur); a
condition evaluating to any nonzero value returns the value of the true
branch and never evaluates the false branch. -/
theorem when_short_circuit (c t f : Expr) (ctx : Ctx) (m : Mem) (n : Nat)
    (m' : Mem) (h : execExpr c ctx m = some (n, m')) :
    execExpr (.when c t f) ctx m
      = (if n = 0 then execExpr f ctx m' else execExpr t ctx m')
    ∧ (n = 0 → ∀ t', execExpr (.when c t' f) ctx m = execExpr f ctx m')
    ∧ (n ≠ 0 → ∀ f', execExpr (.when c t f') ctx m = execExpr t ctx m') := by
  refine ⟨by simp [execExpr, h], ?_, ?_⟩
  · intro hn t'
    subst hn
    simp [execExpr, h]
  · intro hn f'
    simp [execExpr, h, hn]

/-- Witness for C2: condition `0` takes the false branch even when the
true branch is a side-effecting cell write. -/
theorem when_short_circuit_witness :
    execExpr (.lit 0) ctx0 mem7 = some (0, mem7)
    ∧ execExpr (.when (.lit 0) (.saveIn 0 (.lit 5)) (.lit 2)) ctx0 mem7
        = execExpr (.lit 2) ctx0 mem7 :=
  ⟨rfl,
   (when_short_circuit (.lit 0) (.saveIn 0 (.lit 5)) (.lit 2) ctx0 mem7 0 mem7
      rfl).2.1 rfl (.saveIn 0 (.lit 5))⟩

/-- C4: `Constant(name)` aborts the evaluation when the context has no
binding for `name` (modelled as `none`; the Rust code panics with
"name not found" instead of returning a typed error or a default), and
returns the bound unsigned integer when the binding exists. -/
theorem constant_lookup_spec (name : String) (ctx : Ctx) (m : Mem) :
    (ctx name = none → execExpr (.constant name) ctx m = none)
    ∧ (∀ v, ctx name = some v → execExpr (.constant name) ctx m = some (v, m)) := by
  constructor
  · intro h
    simp [execExpr, h]
  · intro v h
    simp [execExpr, h]

/-- Witness for C4: a missing key aborts, a present key returns its value. -/
theorem constant_lookup_spec_witness :
    execExpr (.constant "z") ctx0 mem7 = none
    ∧ execExpr (.constant "y") ctxXY mem7 = some (10, mem7) :=
  ⟨(constant_lookup_spec "z" ctx0 mem7).1 rfl,
   (constant_lookup_spec "y" ctxXY mem7).2 10 (by decide)⟩

/-- C5: `Repeat<N>` executes its inner statement exactly `N` times,
sequentially in order, against the same context each time: it is
equivalent to the `N`-fold sequential chain of the statement, and run
against a logging `Recorder` statement it appends exactly `N` copies of
the label to the log, in order (in particular for `N = 0, 1, 3`). -/
theorem repeatN_runs_n_times (n : Nat) (s : Stmt) (l : String) (ctx : Ctx)
    (st : St) :
    execStmt (.repeatN n s) ctx st = execStmt (seqChain n s) ctx st
    ∧ execStmt (.repeatN n (.recorder l)) ctx st
        = some { st with log := st.log ++ List.replicate n l } :=
  ⟨execStmt_repeatN_seqChain n s ctx st, execStmt_repeatN_recorder n l ctx st⟩

/-- C9: with environment `{x: 0, y: 10}`, the program
`when(constant "y", 1, 2)` evaluates to `1` and
`when(constant "x", 1, 2)` evaluates to `2`, for any cell store. -/
theorem main_conditional_results (m : Mem) :
    execExpr (.when (.constant "y") (.lit 1) (.lit 2)) ctxXY m = some (1, m)
    ∧ execExpr (.when (.constant "x") (.lit 1) (.lit 2)) ctxXY m = some (2, m) := by
  constructor <;> rfl

/-- C10: the override binding is inserted even when the key is absent from
the caller's context: the cloned context binds the key to the cell's
current value, a lookup of the key inside the nested evaluation succeeds
with that value instead of aborting, and the caller's context still lacks
the key afterwards (the context is an immutable value the evaluation never
modifies). -/
theorem volatile_inserts_missing_key (ctx : Ctx) (c : Nat) (k : String)
    (m : Mem) (h : ctx k = none) :
    insertCtx ctx k (m c) k = some (m c)
    ∧ execExpr (.volatile c k (.constant k)) ctx m
        = some (m c, writeCell m c (m c))
    ∧ ctx k = none := by
  refine ⟨by simp [insertCtx], ?_, h⟩
  simp [execExpr, insertCtx]

/-- Witness for C10 at cell `1`, key `"q"`, empty context, all cells `7`. -/
theorem volatile_inserts_missing_key_witness :
    insertCtx ctx0 "q" (mem7 1) "q" = some (mem7 1)
    ∧ execExpr (.volatile 1 "q" (.constant "q")) ctx0 mem7
        = some (mem7 1, writeCell mem7 1 (mem7 1))
    ∧ ctx0 "q" = none :=
  volatile_inserts_missing_key ctx0 1 "q" mem7 rfl

end Lab5
